import Mathlib

/-!
Verification model of the `emis-questionnaire` models: the upsert-based
seeding protocol, the default-derivation (pre-validation) hooks, the seed
upsert criteria, the unique indexes, and the autopopulate projections of
`src/lib/indicator.model.js` and the question model.

Documents are embedded as flat records of optional fields: `none` plays the
role of an absent (`undefined`) field of a plain JS object or mongoose
document, `some v` a present field.  The backing store is a list of such
records, in insertion order.
-/

/-- First-defined choice between two optional values: `x` wins when present.
This is how lodash `_.merge` combines two leaf fields, with `x` the later
source: the later value is taken whenever it is defined, since `_.merge`
skips `undefined` source fields. -/
def orElseD {α : Type} (x y : Option α) : Option α :=
  match x with
  | some v => some v
  | none => y

/-- An Indicator document (or partial seed candidate) as declared by
`IndicatorSchema` in `src/lib/indicator.model.js`: `base` is a reference to
another Indicator by id, the remaining declared paths are strings. -/
structure IndicatorRec where
  _id : Option Nat := none
  base : Option Nat := none
  subject : Option String := none
  topic : Option String := none
  description : Option String := none
  color : Option String := none
  icon : Option String := none
deriving DecidableEq, Repr

/-- Field-wise lodash `_.merge({}, a, b)` on flat indicator objects: on every
field the later source `b` wins whenever it supplies a value, otherwise the
value of `a` is kept. -/
def lodashMerge (a b : IndicatorRec) : IndicatorRec :=
  { _id := orElseD b._id a._id
    base := orElseD b.base a.base
    subject := orElseD b.subject a.subject
    topic := orElseD b.topic a.topic
    description := orElseD b.description a.description
    color := orElseD b.color a.color
    icon := orElseD b.icon a.icon }

/-! ### ASCII character tables

lodash word splitting and the mongoose `uppercase`/`lowercase` setters act on
character classes `[A-Z]`, `[a-z]`, `[0-9]`; we embed those classes as the
concrete character lists they denote. -/

def upperChars : List Char := "ABCDEFGHIJKLMNOPQRSTUVWXYZ".toList

def lowerChars : List Char := "abcdefghijklmnopqrstuvwxyz".toList

def digitChars : List Char := "0123456789".toList

def isUpperA (c : Char) : Bool := upperChars.contains c

def isLowerA (c : Char) : Bool := lowerChars.contains c

def isDigitA (c : Char) : Bool := digitChars.contains c

def isAlphaA (c : Char) : Bool := isUpperA c || isLowerA c

def isWordCharA (c : Char) : Bool := isAlphaA c || isDigitA c

/-- ASCII upper-casing of a single character, by table lookup in the paired
`[a-z]`/`[A-Z]` alphabets; everything else is left unchanged. -/
def asciiUpper (c : Char) : Char :=
  (((lowerChars.zip upperChars).find? (fun p => p.1 == c)).map Prod.snd).getD c

/-- ASCII lower-casing of a single character, by table lookup in the paired
`[A-Z]`/`[a-z]` alphabets; everything else is left unchanged. -/
def asciiLower (c : Char) : Char :=
  (((upperChars.zip lowerChars).find? (fun p => p.1 == c)).map Prod.snd).getD c

def isSpaceA (c : Char) : Bool :=
  c == ' ' || c == '\t' || c == '\n' || c == '\r'

/-- Whitespace trimming of both ends of a character list (the `trim: true`
setter of the string schema paths). -/
def trimChars (cs : List Char) : List Char :=
  ((cs.dropWhile isSpaceA).reverse.dropWhile isSpaceA).reverse

/-- The value stored when a string is assigned to the Indicator `color` path:
the schema declares `trim: true` and `uppercase: true`, so the assigned
string is trimmed and upper-cased by the path setters. -/
def colorSetter (s : String) : String :=
  String.mk ((trimChars s.toList).map asciiUpper)

/-- lodash `_.isEmpty` on an optional string: true for an absent
(`undefined`) value and for the empty string. -/
def isEmptyOpt (o : Option String) : Bool :=
  match o with
  | none => true
  | some s => s.isEmpty

/-- The `preValidate` instance method of `IndicatorSchema`
(`src/lib/indicator.model.js` lines 285-295): when `color` is empty it is
assigned a freshly generated random light color (here the oracle string
`rand`, routed through the `color` path setters), otherwise the document is
left untouched. -/
def preValidateIndicator (rand : String) (i : IndicatorRec) : IndicatorRec :=
  if isEmptyOpt i.color then { i with color := some (colorSetter rand) } else i

/-- The configured Indicator subjects (`ASSESSMENT_INDICATOR_SUBJECTS`
defaults in `src/lib/indicator.model.js` lines 40-45; `sortedUniq` only
reorders, membership is unchanged). -/
def SUBJECTS : List String :=
  ["Population", "Geography", "Health", "Water",
   "Sanitation", "Food & Nutrition", "Shelter",
   "Livelihood", "Income", "Protection", "Education",
   "Basic Needs", "Transportation", "Communication", "Energy"]

/-- Errors surfaced by validation or by the store. -/
inductive SeedError where
  | requiredField (path : String)
  | notInEnum (path : String)
  | uniquenessConflict
deriving DecidableEq, Repr

/-- Mongoose validation of an Indicator document against `IndicatorSchema`:
`subject` is required (non-empty) and must belong to the `SUBJECTS` enum,
`topic` is required (non-empty).  The remaining declared paths carry no
validators.  (The `exists: true` referential check on `base` needs the
backing store and is not part of this per-document validator.) -/
def validateIndicator (r : IndicatorRec) : Option SeedError :=
  match r.subject with
  | none => some (.requiredField "subject")
  | some s =>
    if s.isEmpty then some (.requiredField "subject")
    else if SUBJECTS.contains s then
      match r.topic with
      | none => some (.requiredField "topic")
      | some t => if t.isEmpty then some (.requiredField "topic") else none
    else some (.notInEnum "subject")

/-- Document instantiation `new Indicator(c)`: the supplied fields are kept,
a fresh identifier is assigned when the candidate carries none, and the
declared `default` of the `color` path fires when the path is unset (the
generated value passes through the `color` setters). -/
def newIndicator (freshId : Nat) (rand : String) (c : IndicatorRec) : IndicatorRec :=
  { c with
    _id := orElseD c._id (some freshId)
    color := match c.color with
             | some v => some v
             | none => some (colorSetter rand) }

/-- Criterion preparation of `upsert` (`src/lib/indicator.model.js` lines
336-345, `findExistingIndicator`): pick `_id` alone when the candidate
carries one, otherwise pick the natural key `subject`, `topic`; every other
candidate field is excluded from the criterion. -/
def upsertCriteria (i : IndicatorRec) : IndicatorRec :=
  if i._id.isSome then { _id := i._id }
  else { subject := i.subject, topic := i.topic }

/-- The `prepareSeedCriteria` static of the refactored indicator model
(`src/unnamed/part_001` lines 319-329): same pick of `_id`, or of
`subject`/`topic`, from a copied seed instance. -/
def prepareSeedCriteria (seed : IndicatorRec) : IndicatorRec :=
  if seed._id.isSome then { _id := seed._id }
  else { subject := seed.subject, topic := seed.topic }

/-- A single criterion field matches a document field when the criterion
leaves the field unconstrained (absent) or the document carries exactly the
required value (MongoDB equality match). -/
def fieldMatch {α : Type} [DecidableEq α] (c v : Option α) : Bool :=
  match c with
  | none => true
  | some x => decide (v = some x)

/-- MongoDB `findOne` criterion matching of an indicator document. -/
def matchesCriteria (crit r : IndicatorRec) : Bool :=
  fieldMatch crit._id r._id &&
  fieldMatch crit.base r.base &&
  fieldMatch crit.subject r.subject &&
  fieldMatch crit.topic r.topic &&
  fieldMatch crit.description r.description &&
  fieldMatch crit.color r.color &&
  fieldMatch crit.icon r.icon

/-- Replace the first element satisfying `p` by its image under `f`, leaving
everything else in place (the effect of saving an updated document found by
`findOne`). -/
def replaceFirst {α : Type} (p : α → Bool) (f : α → α) : List α → List α
  | [] => []
  | x :: xs => if p x then f x :: xs else x :: replaceFirst p f xs

/-- The `upsert` static of `IndicatorSchema` (`src/lib/indicator.model.js`
lines 325-361): find an existing document by the `_id`-or-natural-key
criterion; instantiate the candidate when none exists; build
`_.merge({}, candidate, found.toObject())` — so the found document's values
overlay the candidate's — and persist it through the normal validation path
(`preValidate` hook, then the schema validators).  Returns the updated store
together with the persisted document, or the validation error. -/
def upsertE (freshId : Nat) (rand : String) (c : IndicatorRec)
    (s : List IndicatorRec) : Except SeedError (List IndicatorRec × IndicatorRec) :=
  let crit := upsertCriteria c
  match s.find? (fun r => matchesCriteria crit r) with
  | some found =>
    let persisted := preValidateIndicator rand (lodashMerge c found)
    match validateIndicator persisted with
    | some e => .error e
    | none =>
      .ok (replaceFirst (fun r => matchesCriteria crit r)
            (fun r => preValidateIndicator rand (lodashMerge c r)) s,
           persisted)
  | none =>
    let persisted := preValidateIndicator rand (lodashMerge c (newIndicator freshId rand c))
    match validateIndicator persisted with
    | some e => .error e
    | none => .ok (s ++ [persisted], persisted)

/-- The store effect of one upsert: a failed upsert persists nothing and
leaves the store unchanged. -/
def upsert (freshId : Nat) (rand : String) (c : IndicatorRec)
    (s : List IndicatorRec) : List IndicatorRec :=
  match upsertE freshId rand c s with
  | .ok (s2, _) => s2
  | .error _ => s

/-- The store effect of the `seed` static (`src/lib/indicator.model.js`
lines 377-412): every candidate is upserted against the store; each
per-record upsert takes effect independently of the others' failures
(`async.parallel` keeps running the remaining tasks after an error).  Fresh
ids and generated colors are drawn from the position counter `n` and the
color oracle `rand`. -/
def seedStore (rand : Nat → String) : Nat → List IndicatorRec → List IndicatorRec → List IndicatorRec
  | _, s, [] => s
  | n, s, c :: cs => seedStore rand (n + 1) (upsert n (rand n) c s) cs

/-- Result aggregation of `async.parallel`: the first error encountered (in
task order) wins; otherwise the list of per-task results is produced. -/
def exceptCombine (r1 : Except SeedError IndicatorRec)
    (r2 : Except SeedError (List IndicatorRec)) : Except SeedError (List IndicatorRec) :=
  match r1, r2 with
  | .error e, _ => .error e
  | .ok _, .error e => .error e
  | .ok v, .ok vs => .ok (v :: vs)

/-- The `seed` static with its callback semantics: the final store (all
upserts are issued; a failed upsert persists nothing) paired with the
aggregated outcome — the full list of persisted documents when every upsert
succeeds, the first encountered error otherwise. -/
def seedE (rand : Nat → String) : Nat → List IndicatorRec → List IndicatorRec →
    List IndicatorRec × Except SeedError (List IndicatorRec)
  | _, s, [] => (s, .ok [])
  | n, s, c :: cs =>
    let step : List IndicatorRec × Except SeedError IndicatorRec :=
      match upsertE n (rand n) c s with
      | .error e => (s, .error e)
      | .ok (s2, r) => (s2, .ok r)
    let rest := seedE rand (n + 1) step.1 cs
    (rest.1, exceptCombine step.2 rest.2)

/-- Order-preserving deduplication keeping the first occurrence, against a
list of already seen values. -/
def dedupAux {α : Type} [DecidableEq α] (seen : List α) : List α → List α
  | [] => []
  | x :: xs => if x ∈ seen then dedupAux seen xs else x :: dedupAux (x :: seen) xs

/-- lodash `_.uniqWith(l, _.isEqual)`: drop later deep-structural duplicates,
keeping the first occurrence of each value. -/
def uniqWithEqual {α : Type} [DecidableEq α] (l : List α) : List α := dedupAux [] l

/-- lodash `_.compact`: drop the absent (`null`/`undefined`) entries. -/
def compactList {α : Type} (l : List (Option α)) : List α := l.filterMap id

/-- Candidate preprocessing of `seed` (`src/lib/indicator.model.js` lines
389-400): the explicitly supplied candidates are concatenated with the
candidates loaded from the seed file when that file exists (`loaded = none`
is the silently tolerated missing fixture source), then `_.compact` drops
absent entries and `_.uniqWith(_, _.isEqual)` removes structural
duplicates. -/
def seedCandidates (explicit : List (Option IndicatorRec))
    (loaded : Option (List (Option IndicatorRec))) : List IndicatorRec :=
  let all := explicit ++ loaded.getD []
  uniqWithEqual (compactList all)

/-- The whole `seed` static, store effect: preprocess the candidates, then
upsert each against the store. -/
def seedIndicators (rand : Nat → String) (n : Nat) (s : List IndicatorRec)
    (explicit : List (Option IndicatorRec))
    (loaded : Option (List (Option IndicatorRec))) : List IndicatorRec :=
  seedStore rand n s (seedCandidates explicit loaded)

/-- An embedded Choice value object (label/name pair) of the common schema. -/
structure ChoiceRec where
  label : Option String := none
  name : Option String := none
deriving DecidableEq, Repr

/-- A Question document (or partial seed candidate) as declared by
`QuestionSchema` in the question model (`src/unnamed/part_002`):
`indicator` is a required reference to an Indicator by id, `choices` an
optional embedded list of Choice values, the rest are strings. -/
structure QuestionRec where
  _id : Option Nat := none
  indicator : Option Nat := none
  assess : Option String := none
  stage : Option String := none
  phase : Option String := none
  type : Option String := none
  name : Option String := none
  label : Option String := none
  help : Option String := none
  choices : Option (List ChoiceRec) := none
deriving DecidableEq, Repr

/-- The `prepareSeedCriteria` static of `QuestionSchema`
(`src/unnamed/part_002` lines 468-478): pick `_id` alone when the seed
carries one, otherwise pick the natural key `name`; every other seed field
is excluded from the criterion. -/
def prepareSeedCriteriaQuestion (seed : QuestionRec) : QuestionRec :=
  if seed._id.isSome then { _id := seed._id }
  else { name := seed.name }

/-! ### lodash `_.snakeCase` (ASCII fragment)

`_.snakeCase(s)` strips apostrophes, splits the string into words and joins
the lower-cased words with underscores.  On ASCII input the lodash word
splitter treats every non-alphanumeric character as a separator and further
splits alphanumeric runs at lower-to-upper camel boundaries, at
upper-run-to-capitalised-word boundaries, and between letters and digits.
(The ordinal-token special case of full lodash, which keeps suffixes such as
`1st` together, is not distinguished here.) -/

/-- The apostrophe character stripped by lodash before word splitting. -/
def aposChar : Char := Char.ofNat 39

/-- Whether a word must be split between adjacent alphanumeric characters
`a` and `b`, given the character following `b`: lower-or-digit before upper,
any letter/digit transition, and an upper-case run followed by a capitalised
word (upper-upper with a lower-case character next). -/
def isBoundaryA (a b : Char) (nxt : Option Char) : Bool :=
  ((isLowerA a || isDigitA a) && isUpperA b) ||
  (isAlphaA a && isDigitA b) ||
  (isDigitA a && isAlphaA b) ||
  (isUpperA a && isUpperA b && (match nxt with | some n => isLowerA n | none => false))

/-- Word scanner: `acc` holds the current word reversed; non-word characters
close the current word, word characters extend it or start a new one at a
split boundary. -/
def wordsAux : List Char → List Char → List (List Char)
  | acc, [] => if acc.isEmpty then [] else [acc.reverse]
  | acc, c :: rest =>
    if isWordCharA c then
      match acc with
      | [] => wordsAux [c] rest
      | a :: _ =>
        if isBoundaryA a c rest.head? then
          acc.reverse :: wordsAux [c] rest
        else
          wordsAux (c :: acc) rest
    else
      if acc.isEmpty then wordsAux [] rest
      else acc.reverse :: wordsAux [] rest

/-- Join words with a single underscore between consecutive words. -/
def joinUnderscore : List (List Char) → List Char
  | [] => []
  | [w] => w
  | w :: ws => w ++ '_' :: joinUnderscore ws

/-- lodash `_.snakeCase` on ASCII strings: strip apostrophes, split into
words, lower-case each word, join with underscores. -/
def snakeCase (s : String) : String :=
  String.mk (joinUnderscore
    ((wordsAux [] (s.toList.filter (fun c => c != aposChar))).map
      (fun w => w.map asciiLower)))

/-- The `preValidate` instance method of `QuestionSchema`
(`src/unnamed/part_002` lines 422-430): when `name` is empty it is derived
as the snake case of `label` (`_.snakeCase(undefined)` is the empty
string), otherwise the document is left untouched. -/
def preValidateQuestion (q : QuestionRec) : QuestionRec :=
  if isEmptyOpt q.name then { q with name := some (snakeCase (q.label.getD "")) }
  else q

/-! ### Unique indexes

`IndicatorSchema.index({ subject: 1, topic: 1 }, { unique: true })`
(`src/lib/indicator.model.js` lines 251-252) and
`QuestionSchema.index({ name: 1 }, { unique: true })`
(`src/unnamed/part_002` lines 394-395). -/

/-- Whether two indicator documents collide on the declared unique index
`{ subject: 1, topic: 1 }`. -/
def indicatorKeyClash (a b : IndicatorRec) : Bool :=
  decide (a.subject = b.subject) && decide (a.topic = b.topic)

/-- Whether two question documents collide on the declared unique index
`{ name: 1 }`. -/
def questionKeyClash (a b : QuestionRec) : Bool :=
  decide (a.name = b.name)

/-- Modelled from the spec: the MongoDB server's unique-index enforcement is
not part of this repository; per the spec, attempting to create a second
Indicator with an identical `(subject, topic)` fails with a
validation/conflict error and persists nothing. -/
def createIndicator (s : List IndicatorRec) (r : IndicatorRec) :
    Except SeedError (List IndicatorRec) :=
  if s.any (fun x => indicatorKeyClash x r) then .error .uniquenessConflict
  else .ok (s ++ [r])

/-- Modelled from the spec: MongoDB unique-index enforcement for Questions;
creating a second Question with an identical `name` fails with a
validation/conflict error and persists nothing. -/
def createQuestion (s : List QuestionRec) (r : QuestionRec) :
    Except SeedError (List QuestionRec) :=
  if s.any (fun x => questionKeyClash x r) then .error .uniquenessConflict
  else .ok (s ++ [r])

/-! ### Autopopulate projections -/

/-- The paths selected by `OPTION_AUTOPOPULATE` of the Indicator model
(`src/lib/indicator.model.js` lines 53-56): `{ subject: 1, topic: 1,
color: 1 }`. -/
def OPTION_AUTOPOPULATE_select : List String := ["subject", "topic", "color"]

/-- `POPULATION_MAX_DEPTH` of both models. -/
def POPULATION_MAX_DEPTH : Nat := 1

/-- An Indicator document as returned by a read: schema fields, with the
self-referential `base` either resolved to a further populated view or
absent (not selected, beyond the population depth, or dangling). -/
inductive PopulatedIndicator where
  | mk (theId : Option Nat) (base : Option PopulatedIndicator)
       (subject topic description color icon : Option String)

def PopulatedIndicator.theId : PopulatedIndicator → Option Nat
  | .mk i _ _ _ _ _ _ => i

def PopulatedIndicator.base : PopulatedIndicator → Option PopulatedIndicator
  | .mk _ b _ _ _ _ _ => b

def PopulatedIndicator.subject : PopulatedIndicator → Option String
  | .mk _ _ s _ _ _ _ => s

def PopulatedIndicator.topic : PopulatedIndicator → Option String
  | .mk _ _ _ t _ _ _ => t

def PopulatedIndicator.description : PopulatedIndicator → Option String
  | .mk _ _ _ _ d _ _ => d

def PopulatedIndicator.color : PopulatedIndicator → Option String
  | .mk _ _ _ _ _ c _ => c

def PopulatedIndicator.icon : PopulatedIndicator → Option String
  | .mk _ _ _ _ _ _ i => i

/-- Look an Indicator up by id in the store. -/
def lookupIndicator (store : List IndicatorRec) (i : Nat) : Option IndicatorRec :=
  store.find? (fun r => decide (r._id = some i))

/-- Modelled from the spec: mongoose-autopopulate resolution of a referenced
Indicator.  The referenced document is projected onto the paths selected by
`OPTION_AUTOPOPULATE`; its own `base` reference is expanded further only
while it is a selected path and the population depth stays below
`POPULATION_MAX_DEPTH`. -/
def projectIndicator (store : List IndicatorRec) : Nat → IndicatorRec → PopulatedIndicator
  | depth, r =>
    .mk r._id
      (if h : OPTION_AUTOPOPULATE_select.contains "base" = true ∧
              depth < POPULATION_MAX_DEPTH then
         (r.base.bind (lookupIndicator store)).map (projectIndicator store (depth + 1))
       else none)
      (if OPTION_AUTOPOPULATE_select.contains "subject" then r.subject else none)
      (if OPTION_AUTOPOPULATE_select.contains "topic" then r.topic else none)
      (if OPTION_AUTOPOPULATE_select.contains "description" then r.description else none)
      (if OPTION_AUTOPOPULATE_select.contains "color" then r.color else none)
      (if OPTION_AUTOPOPULATE_select.contains "icon" then r.icon else none)
termination_by depth _ => POPULATION_MAX_DEPTH - depth
decreasing_by
  omega

/-- Modelled from the spec: a direct read of an Indicator document returns
all of its schema fields, with its `base` reference auto-resolved (depth 1)
to the shallow `OPTION_AUTOPOPULATE` projection of the target. -/
def readIndicator (store : List IndicatorRec) (r : IndicatorRec) : PopulatedIndicator :=
  .mk r._id
    ((r.base.bind (lookupIndicator store)).map (projectIndicator store 1))
    r.subject r.topic r.description r.color r.icon

/-- Modelled from the spec: reading a Question resolves its `indicator`
reference (declared with `autopopulate: Indicator.OPTION_AUTOPOPULATE`,
`src/unnamed/part_002` line 133) to the shallow projection of the target
Indicator. -/
def readQuestionIndicator (store : List IndicatorRec) (q : QuestionRec) :
    Option PopulatedIndicator :=
  (q.indicator.bind (lookupIndicator store)).map (projectIndicator store 1)

/-- The paths selected by `OPTION_AUTOPOPULATE` of the Question model
(`src/unnamed/part_002` lines 91-94): `{ access: 1, stage: 1, phase: 1,
label: 1, name: 1 }`. -/
def QUESTION_OPTION_AUTOPOPULATE_select : List String :=
  ["access", "stage", "phase", "label", "name"]

/-- The paths declared by `QuestionSchema` (`src/unnamed/part_002`). -/
def questionSchemaPaths : List String :=
  ["indicator", "assess", "stage", "phase", "type", "name", "label", "help", "choices"]

/-- A Question document as seen through a projection. -/
structure QuestionProjection where
  _id : Option Nat := none
  indicator : Option Nat := none
  assess : Option String := none
  stage : Option String := none
  phase : Option String := none
  type : Option String := none
  name : Option String := none
  label : Option String := none
  help : Option String := none
  choices : Option (List ChoiceRec) := none
deriving DecidableEq, Repr

/-- Modelled from the spec: projection of a Question document onto the paths
selected by the Question model's `OPTION_AUTOPOPULATE`; a selected name that
matches no declared schema path selects nothing. -/
def projectQuestion (q : QuestionRec) : QuestionProjection :=
  { _id := q._id
    indicator := if QUESTION_OPTION_AUTOPOPULATE_select.contains "indicator" then q.indicator else none
    assess := if QUESTION_OPTION_AUTOPOPULATE_select.contains "assess" then q.assess else none
    stage := if QUESTION_OPTION_AUTOPOPULATE_select.contains "stage" then q.stage else none
    phase := if QUESTION_OPTION_AUTOPOPULATE_select.contains "phase" then q.phase else none
    type := if QUESTION_OPTION_AUTOPOPULATE_select.contains "type" then q.type else none
    name := if QUESTION_OPTION_AUTOPOPULATE_select.contains "name" then q.name else none
    label := if QUESTION_OPTION_AUTOPOPULATE_select.contains "label" then q.label else none
    help := if QUESTION_OPTION_AUTOPOPULATE_select.contains "help" then q.help else none
    choices := if QUESTION_OPTION_AUTOPOPULATE_select.contains "choices" then q.choices else none }

/-! ### Supporting lemmas: criteria matching and store surgery -/

theorem fieldMatch_orElseD {α : Type} [DecidableEq α] (c v w : Option α)
    (h : fieldMatch c v = true) : fieldMatch c (orElseD v w) = true := by
  cases c with
  | none => rfl
  | some x =>
    simp only [fieldMatch, decide_eq_true_eq] at h ⊢
    subst h
    rfl

theorem preValidateIndicator_id (rand : String) (i : IndicatorRec) :
    (preValidateIndicator rand i)._id = i._id := by
  unfold preValidateIndicator
  split <;> rfl

theorem preValidateIndicator_base (rand : String) (i : IndicatorRec) :
    (preValidateIndicator rand i).base = i.base := by
  unfold preValidateIndicator
  split <;> rfl

theorem preValidateIndicator_subject (rand : String) (i : IndicatorRec) :
    (preValidateIndicator rand i).subject = i.subject := by
  unfold preValidateIndicator
  split <;> rfl

theorem preValidateIndicator_topic (rand : String) (i : IndicatorRec) :
    (preValidateIndicator rand i).topic = i.topic := by
  unfold preValidateIndicator
  split <;> rfl

theorem preValidateIndicator_description (rand : String) (i : IndicatorRec) :
    (preValidateIndicator rand i).description = i.description := by
  unfold preValidateIndicator
  split <;> rfl

theorem preValidateIndicator_icon (rand : String) (i : IndicatorRec) :
    (preValidateIndicator rand i).icon = i.icon := by
  unfold preValidateIndicator
  split <;> rfl

theorem upsertCriteria_color_none (c : IndicatorRec) :
    (upsertCriteria c).color = none := by
  unfold upsertCriteria
  split <;> rfl

theorem matches_preValidate_merge (crit c : IndicatorRec) (rand : String)
    (hcol : crit.color = none) (r : IndicatorRec)
    (h : matchesCriteria crit r = true) :
    matchesCriteria crit (preValidateIndicator rand (lodashMerge c r)) = true := by
  simp only [matchesCriteria, Bool.and_eq_true] at h ⊢
  obtain ⟨⟨⟨⟨⟨⟨h1, h2⟩, h3⟩, h4⟩, h5⟩, h6⟩, h7⟩ := h
  refine ⟨⟨⟨⟨⟨⟨?_, ?_⟩, ?_⟩, ?_⟩, ?_⟩, ?_⟩, ?_⟩
  · rw [preValidateIndicator_id]
    exact fieldMatch_orElseD _ _ _ h1
  · rw [preValidateIndicator_base]
    exact fieldMatch_orElseD _ _ _ h2
  · rw [preValidateIndicator_subject]
    exact fieldMatch_orElseD _ _ _ h3
  · rw [preValidateIndicator_topic]
    exact fieldMatch_orElseD _ _ _ h4
  · rw [preValidateIndicator_description]
    exact fieldMatch_orElseD _ _ _ h5
  · rw [hcol]
    rfl
  · rw [preValidateIndicator_icon]
    exact fieldMatch_orElseD _ _ _ h7

theorem replaceFirst_length {α : Type} (p : α → Bool) (f : α → α) (s : List α) :
    (replaceFirst p f s).length = s.length := by
  induction s with
  | nil => rfl
  | cons a t ih =>
    unfold replaceFirst
    split
    · rfl
    · simp only [List.length_cons, ih]

theorem mem_replaceFirst_of_mem {α : Type} (p : α → Bool) (f : α → α)
    (x : α) (s : List α) (hx : x ∈ s) :
    x ∈ replaceFirst p f s ∨ f x ∈ replaceFirst p f s := by
  induction s with
  | nil => cases hx
  | cons a t ih =>
    unfold replaceFirst
    rcases List.mem_cons.mp hx with h | h
    · subst h
      split
      · right
        exact List.mem_cons_self _ _
      · left
        exact List.mem_cons_self _ _
    · split
      · left
        exact List.mem_cons_of_mem _ h
      · rcases ih h with h2 | h2
        · left
          exact List.mem_cons_of_mem _ h2
        · right
          exact List.mem_cons_of_mem _ h2

/-! ### Supporting lemmas: upsert growth analysis -/

/-- Some document of the store matches the candidate's upsert criterion. -/
def MatchExists (c : IndicatorRec) (s : List IndicatorRec) : Prop :=
  ∃ r ∈ s, matchesCriteria (upsertCriteria c) r = true

/-- Whether a freshly instantiated copy of the candidate would pass
validation; this depends only on the candidate's `subject` and `topic`. -/
def seedKeyValid (c : IndicatorRec) : Bool :=
  (validateIndicator { subject := c.subject, topic := c.topic }).isNone

theorem validateIndicator_congr (r r' : IndicatorRec)
    (hs : r.subject = r'.subject) (ht : r.topic = r'.topic) :
    validateIndicator r = validateIndicator r' := by
  unfold validateIndicator
  rw [hs, ht]

theorem orElseD_self {α : Type} (x : Option α) : orElseD x x = x := by
  cases x <;> rfl

theorem merge_new_subject (n : Nat) (rand : String) (c : IndicatorRec) :
    (preValidateIndicator rand (lodashMerge c (newIndicator n rand c))).subject
      = c.subject := by
  rw [preValidateIndicator_subject]
  show orElseD (newIndicator n rand c).subject c.subject = c.subject
  show orElseD c.subject c.subject = c.subject
  exact orElseD_self _

theorem merge_new_topic (n : Nat) (rand : String) (c : IndicatorRec) :
    (preValidateIndicator rand (lodashMerge c (newIndicator n rand c))).topic
      = c.topic := by
  rw [preValidateIndicator_topic]
  show orElseD (newIndicator n rand c).topic c.topic = c.topic
  show orElseD c.topic c.topic = c.topic
  exact orElseD_self _

theorem upsert_validate_create (n : Nat) (rand : String) (c : IndicatorRec) :
    validateIndicator (preValidateIndicator rand (lodashMerge c (newIndicator n rand c)))
      = validateIndicator { subject := c.subject, topic := c.topic } :=
  validateIndicator_congr _ _ (merge_new_subject n rand c) (merge_new_topic n rand c)

/-- After an upsert of `c`, either some stored document matches `c`'s
criterion, or inserting `c` can never pass validation at all. -/
def UpsertSafe (c : IndicatorRec) (s : List IndicatorRec) : Prop :=
  MatchExists c s ∨ seedKeyValid c = false

theorem matches_self_criteria_create (n : Nat) (rand : String) (c : IndicatorRec) :
    matchesCriteria (upsertCriteria c)
      (preValidateIndicator rand (lodashMerge c (newIndicator n rand c))) = true := by
  have hsub := merge_new_subject n rand c
  have htop := merge_new_topic n rand c
  have hid : (preValidateIndicator rand (lodashMerge c (newIndicator n rand c)))._id
      = orElseD c._id (some n) := by
    rw [preValidateIndicator_id]
    show orElseD (newIndicator n rand c)._id c._id = orElseD c._id (some n)
    show orElseD (orElseD c._id (some n)) c._id = orElseD c._id (some n)
    cases c._id <;> rfl
  unfold upsertCriteria
  cases hC : c._id with
  | some i =>
    simp only [hC, Option.isSome_some, if_true]
    simp only [matchesCriteria, Bool.and_eq_true]
    refine ⟨⟨⟨⟨⟨⟨?_, rfl⟩, rfl⟩, rfl⟩, rfl⟩, rfl⟩, rfl⟩
    rw [hid, hC]
    simp [fieldMatch, orElseD]
  | none =>
    simp only [hC, Option.isSome_none, Bool.false_eq_true, if_false]
    simp only [matchesCriteria, Bool.and_eq_true]
    refine ⟨⟨⟨⟨⟨⟨rfl, rfl⟩, ?_⟩, ?_⟩, rfl⟩, rfl⟩, rfl⟩
    · show fieldMatch c.subject _ = true
      rw [hsub]
      cases c.subject
      · rfl
      · simp [fieldMatch]
    · show fieldMatch c.topic _ = true
      rw [htop]
      cases c.topic
      · rfl
      · simp [fieldMatch]

theorem upsertE_create_ok (n : Nat) (rand : String) (c : IndicatorRec)
    (s : List IndicatorRec)
    (hf : s.find? (fun r => matchesCriteria (upsertCriteria c) r) = none)
    (hv : validateIndicator
      (preValidateIndicator rand (lodashMerge c (newIndicator n rand c))) = none) :
    upsertE n rand c s =
      .ok (s ++ [preValidateIndicator rand (lodashMerge c (newIndicator n rand c))],
           preValidateIndicator rand (lodashMerge c (newIndicator n rand c))) := by
  unfold upsertE
  simp only [hf, hv]

theorem upsertE_create_err (n : Nat) (rand : String) (c : IndicatorRec)
    (s : List IndicatorRec) (e : SeedError)
    (hf : s.find? (fun r => matchesCriteria (upsertCriteria c) r) = none)
    (hv : validateIndicator
      (preValidateIndicator rand (lodashMerge c (newIndicator n rand c))) = some e) :
    upsertE n rand c s = .error e := by
  unfold upsertE
  simp only [hf, hv]

theorem upsertE_update_ok (n : Nat) (rand : String) (c found : IndicatorRec)
    (s : List IndicatorRec)
    (hf : s.find? (fun r => matchesCriteria (upsertCriteria c) r) = some found)
    (hv : validateIndicator (preValidateIndicator rand (lodashMerge c found)) = none) :
    upsertE n rand c s =
      .ok (replaceFirst (fun r => matchesCriteria (upsertCriteria c) r)
            (fun r => preValidateIndicator rand (lodashMerge c r)) s,
           preValidateIndicator rand (lodashMerge c found)) := by
  unfold upsertE
  simp only [hf, hv]

theorem upsertE_update_err (n : Nat) (rand : String) (c found : IndicatorRec)
    (s : List IndicatorRec) (e : SeedError)
    (hf : s.find? (fun r => matchesCriteria (upsertCriteria c) r) = some found)
    (hv : validateIndicator (preValidateIndicator rand (lodashMerge c found)) = some e) :
    upsertE n rand c s = .error e := by
  unfold upsertE
  simp only [hf, hv]

theorem upsert_establishes (n : Nat) (rand : String) (c : IndicatorRec)
    (s : List IndicatorRec) : UpsertSafe c (upsert n rand c s) := by
  unfold upsert
  cases hf : s.find? (fun r => matchesCriteria (upsertCriteria c) r) with
  | some found =>
    have hfound : found ∈ s := List.mem_of_find?_eq_some hf
    have hmatch : matchesCriteria (upsertCriteria c) found = true := List.find?_some hf
    cases hv : validateIndicator (preValidateIndicator rand (lodashMerge c found)) with
    | some e =>
      rw [upsertE_update_err n rand c found s e hf hv]
      exact Or.inl ⟨found, hfound, hmatch⟩
    | none =>
      rw [upsertE_update_ok n rand c found s hf hv]
      left
      rcases mem_replaceFirst_of_mem (fun r => matchesCriteria (upsertCriteria c) r)
        (fun r => preValidateIndicator rand (lodashMerge c r)) found s hfound with h | h
      · exact ⟨found, h, hmatch⟩
      · exact ⟨_, h, matches_preValidate_merge _ c rand (upsertCriteria_color_none c) _ hmatch⟩
  | none =>
    cases hv : validateIndicator
        (preValidateIndicator rand (lodashMerge c (newIndicator n rand c))) with
    | some e =>
      rw [upsertE_create_err n rand c s e hf hv]
      right
      unfold seedKeyValid
      rw [← upsert_validate_create n rand c, hv]
      rfl
    | none =>
      rw [upsertE_create_ok n rand c s hf hv]
      left
      exact ⟨_, List.mem_append_right s (List.mem_cons_self _ _),
             matches_self_criteria_create n rand c⟩

theorem upsert_preserves (n : Nat) (rand : String) (c c' : IndicatorRec)
    (s : List IndicatorRec) (h : UpsertSafe c' s) :
    UpsertSafe c' (upsert n rand c s) := by
  rcases h with ⟨r, hr, hm⟩ | h
  · unfold upsert
    cases hf : s.find? (fun r => matchesCriteria (upsertCriteria c) r) with
    | some found =>
      cases hv : validateIndicator (preValidateIndicator rand (lodashMerge c found)) with
      | some e =>
        rw [upsertE_update_err n rand c found s e hf hv]
        exact Or.inl ⟨r, hr, hm⟩
      | none =>
        rw [upsertE_update_ok n rand c found s hf hv]
        left
        rcases mem_replaceFirst_of_mem (fun x => matchesCriteria (upsertCriteria c) x)
          (fun x => preValidateIndicator rand (lodashMerge c x)) r s hr with h2 | h2
        · exact ⟨r, h2, hm⟩
        · exact ⟨_, h2, matches_preValidate_merge _ c rand (upsertCriteria_color_none c') _ hm⟩
    | none =>
      cases hv : validateIndicator
          (preValidateIndicator rand (lodashMerge c (newIndicator n rand c))) with
      | some e =>
        rw [upsertE_create_err n rand c s e hf hv]
        exact Or.inl ⟨r, hr, hm⟩
      | none =>
        rw [upsertE_create_ok n rand c s hf hv]
        exact Or.inl ⟨r, List.mem_append_left _ hr, hm⟩
  · exact Or.inr h

theorem upsert_length_of_safe (n : Nat) (rand : String) (c : IndicatorRec)
    (s : List IndicatorRec) (h : UpsertSafe c s) :
    (upsert n rand c s).length = s.length := by
  unfold upsert
  cases hf : s.find? (fun r => matchesCriteria (upsertCriteria c) r) with
  | some found =>
    cases hv : validateIndicator (preValidateIndicator rand (lodashMerge c found)) with
    | some e => rw [upsertE_update_err n rand c found s e hf hv]
    | none =>
      rw [upsertE_update_ok n rand c found s hf hv]
      exact replaceFirst_length _ _ s
  | none =>
    cases hv : validateIndicator
        (preValidateIndicator rand (lodashMerge c (newIndicator n rand c))) with
    | some e => rw [upsertE_create_err n rand c s e hf hv]
    | none =>
      exfalso
      rcases h with ⟨r, hr, hm⟩ | h
      · have := List.find?_eq_none.mp hf r hr
        exact this hm
      · unfold seedKeyValid at h
        rw [← upsert_validate_create n rand c, hv] at h
        simp at h

theorem seedStore_preserves_safe (rand : Nat → String) (c' : IndicatorRec) :
    ∀ (cs : List IndicatorRec) (n : Nat) (s : List IndicatorRec),
    UpsertSafe c' s → UpsertSafe c' (seedStore rand n s cs) := by
  intro cs
  induction cs with
  | nil => intro n s h; exact h
  | cons c t ih =>
    intro n s h
    exact ih (n + 1) (upsert n (rand n) c s) (upsert_preserves n (rand n) c c' s h)

theorem seedStore_establishes (rand : Nat → String) :
    ∀ (cs : List IndicatorRec) (n : Nat) (s : List IndicatorRec),
    ∀ c ∈ cs, UpsertSafe c (seedStore rand n s cs) := by
  intro cs
  induction cs with
  | nil => intro n s c hc; cases hc
  | cons a t ih =>
    intro n s c hc
    rcases List.mem_cons.mp hc with h | h
    · subst h
      exact seedStore_preserves_safe rand c t (n + 1) _
        (upsert_establishes n (rand n) c s)
    · exact ih (n + 1) _ c h

theorem seedStore_length_of_safe (rand : Nat → String) :
    ∀ (cs : List IndicatorRec) (n : Nat) (s : List IndicatorRec),
    (∀ c ∈ cs, UpsertSafe c s) → (seedStore rand n s cs).length = s.length := by
  intro cs
  induction cs with
  | nil => intro n s _; rfl
  | cons a t ih =>
    intro n s h
    have ha : UpsertSafe a s := h a (List.mem_cons_self a t)
    have hlen : (upsert n (rand n) a s).length = s.length :=
      upsert_length_of_safe n (rand n) a s ha
    have ht : ∀ c ∈ t, UpsertSafe c (upsert n (rand n) a s) := by
      intro c hc
      exact upsert_preserves n (rand n) a c s (h c (List.mem_cons_of_mem a hc))
    show (seedStore rand (n + 1) (upsert n (rand n) a s) t).length = s.length
    rw [ih (n + 1) _ ht, hlen]

/-- C2: running the seed operation twice with the same fixture set (the same
explicitly supplied candidates plus the same loaded fixture candidates)
leaves exactly as many stored records as a single run: every candidate of
the second run either finds its already-seeded record by the upsert
criterion (so the upsert updates in place), or fails validation exactly as
it did the first time (so nothing is inserted); in both cases no new record
and no duplicate Indicator is created. -/
theorem seed_idempotent_record_count (rand rand2 : Nat → String) (n m : Nat)
    (s : List IndicatorRec) (explicit : List (Option IndicatorRec))
    (loaded : Option (List (Option IndicatorRec))) :
    (seedIndicators rand2 m (seedIndicators rand n s explicit loaded) explicit loaded).length
      = (seedIndicators rand n s explicit loaded).length := by
  unfold seedIndicators
  apply seedStore_length_of_safe
  intro c hc
  exact seedStore_establishes rand _ n s c hc

/-! ### Supporting lemmas: first-match surgery on a split store -/

theorem find?_append_cons {α : Type} (p : α → Bool) (s1 : List α) (found : α)
    (s2 : List α) (h1 : ∀ r ∈ s1, p r = false) (h2 : p found = true) :
    (s1 ++ found :: s2).find? p = some found := by
  induction s1 with
  | nil => exact List.find?_cons_of_pos s2 h2
  | cons a t ih =>
    have ha : p a = false := h1 a (List.mem_cons_self a t)
    have ht : ∀ r ∈ t, p r = false := fun r hr => h1 r (List.mem_cons_of_mem a hr)
    rw [List.cons_append, List.find?_cons_of_neg _ (by simp [ha]), ih ht]

theorem replaceFirst_append_cons {α : Type} (p : α → Bool) (f : α → α)
    (s1 : List α) (found : α) (s2 : List α)
    (h1 : ∀ r ∈ s1, p r = false) (h2 : p found = true) :
    replaceFirst p f (s1 ++ found :: s2) = s1 ++ f found :: s2 := by
  induction s1 with
  | nil => simp [replaceFirst, h2]
  | cons a t ih =>
    have ha : p a = false := h1 a (List.mem_cons_self a t)
    have ht : ∀ r ∈ t, p r = false := fun r hr => h1 r (List.mem_cons_of_mem a hr)
    simp [replaceFirst, ha, ih ht]

/-- C1 (counterexample): the claim that the candidate's explicitly supplied
fields win over the stored record's on conflict is false.  A candidate
supplying `description = "new"` against a stored record with
`description = "old"` (same natural key) leaves `description = "old"` in the
persisted result: `_.merge({}, candidate, found.toObject())` lets the found
(stored) record overlay the candidate. -/
theorem upsert_candidate_loses_counterexample :
    (upsert 7 "#ABC123"
      { subject := some "Water", topic := some "Supply", description := some "new" }
      [{ _id := some 1, subject := some "Water", topic := some "Supply",
         description := some "old", color := some "#AAAAAA" }]).map IndicatorRec.description
      = [some "old"]
    ∧ ({ subject := some "Water", topic := some "Supply", description := some "new" }
        : IndicatorRec).description = some "new" := by
  exact ⟨by decide, rfl⟩

/-- C1 (amended): when a seed candidate matches an existing stored record by
the upsert criterion, the upsert merges by starting from the candidate's
supplied fields and overlaying the existing record's stored fields: on every
field both sides supply, the previously stored value wins in the persisted
result, and the candidate's value is used only where the stored record has
none. -/
theorem upsert_merge_existing_wins (n : Nat) (rand : String) (c found : IndicatorRec)
    (s1 s2 : List IndicatorRec)
    (h1 : ∀ r ∈ s1, matchesCriteria (upsertCriteria c) r = false)
    (h2 : matchesCriteria (upsertCriteria c) found = true)
    (h3 : validateIndicator (preValidateIndicator rand (lodashMerge c found)) = none) :
    upsert n rand c (s1 ++ found :: s2)
      = s1 ++ preValidateIndicator rand (lodashMerge c found) :: s2
    ∧ (∀ x, found._id = some x → (lodashMerge c found)._id = some x)
    ∧ (∀ x, found.base = some x → (lodashMerge c found).base = some x)
    ∧ (∀ x, found.subject = some x → (lodashMerge c found).subject = some x)
    ∧ (∀ x, found.topic = some x → (lodashMerge c found).topic = some x)
    ∧ (∀ x, found.description = some x → (lodashMerge c found).description = some x)
    ∧ (∀ x, found.color = some x → (lodashMerge c found).color = some x)
    ∧ (∀ x, found.icon = some x → (lodashMerge c found).icon = some x)
    ∧ (found._id = none → (lodashMerge c found)._id = c._id)
    ∧ (found.base = none → (lodashMerge c found).base = c.base)
    ∧ (found.subject = none → (lodashMerge c found).subject = c.subject)
    ∧ (found.topic = none → (lodashMerge c found).topic = c.topic)
    ∧ (found.description = none → (lodashMerge c found).description = c.description)
    ∧ (found.color = none → (lodashMerge c found).color = c.color)
    ∧ (found.icon = none → (lodashMerge c found).icon = c.icon) := by
  refine ⟨?_, ?_, ?_, ?_, ?_, ?_, ?_, ?_, ?_, ?_, ?_, ?_, ?_, ?_, ?_⟩
  · have hf : (s1 ++ found :: s2).find?
        (fun r => matchesCriteria (upsertCriteria c) r) = some found :=
      find?_append_cons _ s1 found s2 h1 h2
    unfold upsert
    rw [upsertE_update_ok n rand c found (s1 ++ found :: s2) hf h3]
    exact replaceFirst_append_cons _ _ s1 found s2 h1 h2
  all_goals intros
  all_goals simp_all [lodashMerge, orElseD]

/-- Closed instance of the amended C1 merge direction, at a concrete
candidate and a singleton store. -/
theorem upsert_merge_existing_wins_witness :
    upsert 7 "#ABC123"
      { subject := some "Water", topic := some "Supply", description := some "new" }
      ([] ++ ({ _id := some 1, subject := some "Water", topic := some "Supply",
                description := some "old", color := some "#AAAAAA" } : IndicatorRec) :: [])
      = [] ++ preValidateIndicator "#ABC123"
          (lodashMerge
            { subject := some "Water", topic := some "Supply", description := some "new" }
            { _id := some 1, subject := some "Water", topic := some "Supply",
              description := some "old", color := some "#AAAAAA" }) :: [] :=
  (upsert_merge_existing_wins 7 "#ABC123"
    { subject := some "Water", topic := some "Supply", description := some "new" }
    { _id := some 1, subject := some "Water", topic := some "Supply",
      description := some "old", color := some "#AAAAAA" }
    [] []
    (by intro r hr; cases hr)
    (by decide)
    (by decide)).1

/-- C3: the upsert lookup criterion of a seed candidate is `{_id}` alone
when the candidate carries an identifier, and otherwise exactly the
model-specific natural key — `{subject, topic}` for Indicator, `{name}` for
Question — with every other candidate field excluded (the structure
literals leave all unnamed fields absent); moreover the criterion built
inline by `upsert` agrees with the `prepareSeedCriteria` static. -/
theorem seed_criteria_natural_key (c : IndicatorRec) (q : QuestionRec) :
    (∀ i, c._id = some i →
      upsertCriteria c = { _id := some i } ∧
      prepareSeedCriteria c = { _id := some i }) ∧
    (c._id = none →
      upsertCriteria c = { subject := c.subject, topic := c.topic } ∧
      prepareSeedCriteria c = { subject := c.subject, topic := c.topic }) ∧
    (∀ i, q._id = some i → prepareSeedCriteriaQuestion q = { _id := some i }) ∧
    (q._id = none → prepareSeedCriteriaQuestion q = { name := q.name }) ∧
    upsertCriteria c = prepareSeedCriteria c := by
  refine ⟨?_, ?_, ?_, ?_, rfl⟩
  · intro i h
    unfold upsertCriteria prepareSeedCriteria
    rw [h]
    exact ⟨rfl, rfl⟩
  · intro h
    unfold upsertCriteria prepareSeedCriteria
    rw [h]
    exact ⟨rfl, rfl⟩
  · intro i h
    unfold prepareSeedCriteriaQuestion
    rw [h]
    rfl
  · intro h
    unfold prepareSeedCriteriaQuestion
    rw [h]
    rfl

/-- Closed instance of the C3 criterion computation, at a candidate with an
id and a candidate with only natural-key fields. -/
theorem seed_criteria_natural_key_witness :
    prepareSeedCriteriaQuestion { _id := some 5, name := some "water_supply" }
      = { _id := some 5 } ∧
    upsertCriteria { subject := some "Water", topic := some "Supply",
                     description := some "d" }
      = { subject := some "Water", topic := some "Supply" } :=
  ⟨(seed_criteria_natural_key {} { _id := some 5, name := some "water_supply" }).2.2.1 5 rfl,
   ((seed_criteria_natural_key
      { subject := some "Water", topic := some "Supply", description := some "d" }
      {}).2.1 rfl).1⟩

/-! ### Supporting lemmas: candidate preprocessing -/

theorem mem_dedupAux {α : Type} [DecidableEq α] (x : α) :
    ∀ (l seen : List α), x ∈ dedupAux seen l ↔ (x ∈ l ∧ x ∉ seen) := by
  intro l
  induction l with
  | nil => intro seen; simp [dedupAux]
  | cons a t ih =>
    intro seen
    unfold dedupAux
    by_cases ha : a ∈ seen
    · rw [if_pos ha, ih seen]
      constructor
      · rintro ⟨hx, hns⟩
        exact ⟨List.mem_cons_of_mem a hx, hns⟩
      · rintro ⟨hx, hns⟩
        rcases List.mem_cons.mp hx with h | h
        · subst h; exact absurd ha hns
        · exact ⟨h, hns⟩
    · rw [if_neg ha]
      constructor
      · intro hx
        rcases List.mem_cons.mp hx with h | h
        · subst h; exact ⟨List.mem_cons_self _ _, ha⟩
        · rcases (ih (a :: seen)).mp h with ⟨ht, hns⟩
          refine ⟨List.mem_cons_of_mem a ht, fun hs => hns (List.mem_cons_of_mem a hs)⟩
      · rintro ⟨hx, hns⟩
        rcases List.mem_cons.mp hx with h | h
        · subst h; exact List.mem_cons_self _ _
        · by_cases hxa : x = a
          · subst hxa; exact List.mem_cons_self x _
          · refine List.mem_cons_of_mem a ((ih (a :: seen)).mpr ⟨h, ?_⟩)
            intro hmem
            rcases List.mem_cons.mp hmem with h2 | h2
            · exact hxa h2
            · exact hns h2

theorem nodup_dedupAux {α : Type} [DecidableEq α] :
    ∀ (l seen : List α), (dedupAux seen l).Nodup := by
  intro l
  induction l with
  | nil => intro seen; simp [dedupAux]
  | cons a t ih =>
    intro seen
    unfold dedupAux
    by_cases ha : a ∈ seen
    · rw [if_pos ha]; exact ih seen
    · rw [if_neg ha]
      refine List.Nodup.cons ?_ (ih (a :: seen))
      intro hmem
      exact ((mem_dedupAux a t (a :: seen)).mp hmem).2 (List.mem_cons_self a seen)

theorem mem_compactList {α : Type} (x : α) (l : List (Option α)) :
    x ∈ compactList l ↔ some x ∈ l := by
  simp [compactList, List.mem_filterMap]

/-- C6: the list of candidates the seed operation upserts is obtained from
the concatenation of the explicitly supplied candidates and the candidates
loaded from the fixture source: absent (`null`/`undefined`) entries are
dropped, structural duplicates are removed (the result has no duplicate,
contains exactly the present entries of the concatenation), and a missing
fixture source (`loaded = none`) is tolerated silently — seeding proceeds
with the preprocessing of the explicit candidates alone. -/
theorem seed_candidate_preprocessing (explicit : List (Option IndicatorRec))
    (loaded : Option (List (Option IndicatorRec))) :
    seedCandidates explicit none = uniqWithEqual (compactList explicit) ∧
    (seedCandidates explicit loaded).Nodup ∧
    (∀ x ∈ seedCandidates explicit loaded, some x ∈ explicit ++ loaded.getD []) ∧
    (∀ x : IndicatorRec,
      some x ∈ explicit ++ loaded.getD [] → x ∈ seedCandidates explicit loaded) := by
  refine ⟨?_, ?_, ?_, ?_⟩
  · simp [seedCandidates]
  · exact nodup_dedupAux _ _
  · intro x hx
    have h := (mem_dedupAux x _ []).mp hx
    exact (mem_compactList x _).mp h.1
  · intro x hx
    refine (mem_dedupAux x _ []).mpr ⟨(mem_compactList x _).mpr hx, ?_⟩
    intro h
    cases h

/-- Closed instance of the C6 preprocessing: a duplicated candidate and an
absent entry collapse to a single upserted candidate with a missing fixture
source. -/
theorem seed_candidate_preprocessing_witness :
    ({ subject := some "Water" } : IndicatorRec) ∈
      seedCandidates [some { subject := some "Water" }, none,
                      some { subject := some "Water" }] none ∧
    (seedCandidates [some { subject := some "Water" }, none,
                     some { subject := some "Water" }] none
      : List IndicatorRec).length = 1 :=
  ⟨(seed_candidate_preprocessing
      [some { subject := some "Water" }, none, some { subject := some "Water" }]
      none).2.2.2 { subject := some "Water" } (by decide),
   by decide⟩

/-! ### Supporting lemmas: snake-case output shape -/

theorem mem_of_containsA {l : List Char} {a : Char} (h : l.contains a = true) :
    a ∈ l := by
  simpa using h

theorem asciiLower_word (c : Char) (h : isWordCharA c = true) :
    (isLowerA (asciiLower c) || isDigitA (asciiLower c)) = true := by
  have hu : ∀ x ∈ upperChars, (isLowerA (asciiLower x) || isDigitA (asciiLower x)) = true := by
    decide
  have hl : ∀ x ∈ lowerChars, (isLowerA (asciiLower x) || isDigitA (asciiLower x)) = true := by
    decide
  have hd : ∀ x ∈ digitChars, (isLowerA (asciiLower x) || isDigitA (asciiLower x)) = true := by
    decide
  unfold isWordCharA isAlphaA isUpperA isLowerA isDigitA at h
  rcases (Bool.or_eq_true _ _).mp h with h2 | h2
  · rcases (Bool.or_eq_true _ _).mp h2 with h3 | h3
    · exact hu c (mem_of_containsA h3)
    · exact hl c (mem_of_containsA h3)
  · exact hd c (mem_of_containsA h2)

theorem wordsAux_cons_word_start (c : Char) (rest : List Char)
    (h : isWordCharA c = true) :
    wordsAux [] (c :: rest) = wordsAux [c] rest := by
  rw [wordsAux.eq_def]
  simp [h]

theorem wordsAux_cons_word_boundary (a : Char) (t : List Char) (c : Char)
    (rest : List Char) (hw : isWordCharA c = true)
    (hb : isBoundaryA a c rest.head? = true) :
    wordsAux (a :: t) (c :: rest) = (a :: t).reverse :: wordsAux [c] rest := by
  rw [wordsAux.eq_def]
  simp [hw, hb]

theorem wordsAux_cons_word_extend (a : Char) (t : List Char) (c : Char)
    (rest : List Char) (hw : isWordCharA c = true)
    (hb : isBoundaryA a c rest.head? = false) :
    wordsAux (a :: t) (c :: rest) = wordsAux (c :: a :: t) rest := by
  rw [wordsAux.eq_def]
  simp [hw, hb]

theorem wordsAux_cons_sep_nil (c : Char) (rest : List Char)
    (hw : isWordCharA c = false) :
    wordsAux [] (c :: rest) = wordsAux [] rest := by
  rw [wordsAux.eq_def]
  simp [hw]

theorem wordsAux_cons_sep_close (a : Char) (t : List Char) (c : Char)
    (rest : List Char) (hw : isWordCharA c = false) :
    wordsAux (a :: t) (c :: rest) = (a :: t).reverse :: wordsAux [] rest := by
  rw [wordsAux.eq_def]
  simp [hw]

theorem wordsAux_chars :
    ∀ (cs acc : List Char), (∀ a ∈ acc, isWordCharA a = true) →
    ∀ w ∈ wordsAux acc cs, ∀ ch ∈ w, isWordCharA ch = true := by
  intro cs
  induction cs with
  | nil =>
    intro acc hacc w hw ch hch
    unfold wordsAux at hw
    split at hw
    · cases hw
    · rw [List.mem_singleton] at hw
      subst hw
      exact hacc ch (List.mem_reverse.mp hch)
  | cons c rest ih =>
    intro acc hacc w hw ch hch
    by_cases hwc : isWordCharA c = true
    · cases acc with
      | nil =>
        rw [wordsAux_cons_word_start c rest hwc] at hw
        refine ih [c] ?_ w hw ch hch
        intro a ha
        rw [List.mem_singleton] at ha
        subst ha
        exact hwc
      | cons a t =>
        by_cases hb : isBoundaryA a c rest.head? = true
        · rw [wordsAux_cons_word_boundary a t c rest hwc hb] at hw
          rcases List.mem_cons.mp hw with h | h
          · subst h
            exact hacc ch (List.mem_reverse.mp hch)
          · refine ih [c] ?_ w h ch hch
            intro x hx
            rw [List.mem_singleton] at hx
            subst hx
            exact hwc
        · rw [wordsAux_cons_word_extend a t c rest hwc
              (Bool.eq_false_iff.mpr hb)] at hw
          refine ih (c :: a :: t) ?_ w hw ch hch
          intro x hx
          rcases List.mem_cons.mp hx with h2 | h2
          · subst h2
            exact hwc
          · exact hacc x h2
    · have hwf : isWordCharA c = false := Bool.eq_false_iff.mpr hwc
      cases acc with
      | nil =>
        rw [wordsAux_cons_sep_nil c rest hwf] at hw
        exact ih [] (by intro a ha; cases ha) w hw ch hch
      | cons a t =>
        rw [wordsAux_cons_sep_close a t c rest hwf] at hw
        rcases List.mem_cons.mp hw with h | h
        · subst h
          exact hacc ch (List.mem_reverse.mp hch)
        · exact ih [] (by intro a ha; cases ha) w h ch hch

theorem joinUnderscore_chars (ws : List (List Char))
    (h : ∀ w ∈ ws, ∀ ch ∈ w, (isLowerA ch || isDigitA ch) = true) :
    ∀ ch ∈ joinUnderscore ws, (isLowerA ch || isDigitA ch) = true ∨ ch = '_' := by
  induction ws with
  | nil => intro ch hch; cases hch
  | cons w ws ih =>
    intro ch hch
    cases ws with
    | nil =>
      have hch2 : ch ∈ w := hch
      exact Or.inl (h w (List.mem_cons_self _ _) ch hch2)
    | cons v vs =>
      have hch2 : ch ∈ w ++ '_' :: joinUnderscore (v :: vs) := hch
      rcases List.mem_append.mp hch2 with h1 | h1
      · exact Or.inl (h w (List.mem_cons_self _ _) ch h1)
      · rcases List.mem_cons.mp h1 with h2 | h2
        · exact Or.inr h2
        · exact ih (fun u hu ch2 hc2 => h u (List.mem_cons_of_mem _ hu) ch2 hc2) ch h2

theorem snakeCase_chars (s : String) :
    ∀ ch ∈ (snakeCase s).toList, (isLowerA ch || isDigitA ch) = true ∨ ch = '_' := by
  intro ch hch
  have hch2 : ch ∈ joinUnderscore
      ((wordsAux [] (s.toList.filter (fun c => c != aposChar))).map
        (fun w => w.map asciiLower)) := hch
  refine joinUnderscore_chars _ ?_ ch hch2
  intro w hw ch2 hc2
  rcases List.mem_map.mp hw with ⟨w0, hw0, rfl⟩
  rcases List.mem_map.mp hc2 with ⟨c0, hc0, rfl⟩
  exact asciiLower_word c0 (wordsAux_chars _ [] (by intro a ha; cases ha) w0 hw0 c0 hc0)

/-- C4: the question pre-validation step derives `name` from `label` exactly
when `name` is still empty: an empty (or absent) `name` becomes the
lower-snake-case transform of `label` — whose characters are all lowercase
letters, digits, or the underscore separator, punctuation having been
stripped — while a non-empty `name` is left completely unchanged. -/
theorem question_name_derivation (q : QuestionRec) :
    (isEmptyOpt q.name = true →
      (preValidateQuestion q).name = some (snakeCase (q.label.getD "")) ∧
      ∀ ch ∈ (snakeCase (q.label.getD "")).toList,
        (isLowerA ch || isDigitA ch) = true ∨ ch = '_') ∧
    (isEmptyOpt q.name = false → preValidateQuestion q = q) := by
  constructor
  · intro h
    refine ⟨?_, snakeCase_chars _⟩
    unfold preValidateQuestion
    rw [if_pos h]
  · intro h
    unfold preValidateQuestion
    rw [if_neg]
    simp [h]

/-- Closed instance of the C4 derivation: the spec's own example label
produces the expected snake-case name. -/
theorem question_name_derivation_witness :
    (preValidateQuestion { label := some "Was there water supply before?" }).name
      = some "was_there_water_supply_before" := by
  have h := ((question_name_derivation
    { label := some "Was there water supply before?" }).1 (by decide)).1
  rw [h]
  decide

/-! ### Hex color shapes -/

/-- Uppercase hexadecimal digits. -/
def hexUpperChars : List Char := "0123456789ABCDEF".toList

/-- Hexadecimal digits of either case (the alphabet of `randomcolor`
output). -/
def hexAnyChars : List Char := "0123456789abcdefABCDEF".toList

/-- A `#`-led character list whose tail is at least one hex digit of either
case. -/
def isHexList : List Char → Bool
  | [] => false
  | c :: rest => c == '#' && !rest.isEmpty && rest.all (fun ch => hexAnyChars.contains ch)

/-- A `#`-led character list whose tail is at least one uppercase hex
digit. -/
def isUpperHexList : List Char → Bool
  | [] => false
  | c :: rest => c == '#' && !rest.isEmpty && rest.all (fun ch => hexUpperChars.contains ch)

/-- A hex color string of either case (the shape of `randomcolor` output). -/
def isHexColor (s : String) : Bool := isHexList s.toList

/-- An uppercase hex color string. -/
def isUpperHexColor (s : String) : Bool := isUpperHexList s.toList

theorem dropWhile_head_false {α : Type} (p : α → Bool) (l : List α)
    (h : ∀ c ∈ l, p c = false) : l.dropWhile p = l := by
  cases l with
  | nil => rfl
  | cons a t =>
    rw [List.dropWhile_cons, if_neg]
    simp [h a (List.mem_cons_self a t)]

theorem trimChars_all_nonspace (l : List Char) (h : ∀ c ∈ l, isSpaceA c = false) :
    trimChars l = l := by
  unfold trimChars
  rw [dropWhile_head_false isSpaceA l h,
      dropWhile_head_false isSpaceA l.reverse
        (fun c hc => h c (List.mem_reverse.mp hc)),
      List.reverse_reverse]

/-- C5 (counterexample): the claim that after validation every Indicator's
`color` is an uppercase hex-like string is false for a supplied color: the
schema imposes no format validator on `color`, so a stored `color = "BLUE"`
survives the pre-validation step untouched, passes validation, and is not a
hex color. -/
theorem indicator_color_hexlike_counterexample :
    (preValidateIndicator "#A3F2BB"
      { subject := some "Water", topic := some "Supply", color := some "BLUE" }).color
      = some "BLUE"
    ∧ isUpperHexColor "BLUE" = false
    ∧ validateIndicator
        { subject := some "Water", topic := some "Supply", color := some "BLUE" } = none
    ∧ (upsert 0 "#A3F2BB"
        { subject := some "Water", topic := some "Supply", color := some "BLUE" }
        []).map IndicatorRec.color = [some "BLUE"] := by
  refine ⟨by decide, by decide, by decide, by decide⟩

/-- C5 (amended): the Indicator pre-validation step assigns a generated
color (routed through the `trim`/`uppercase` setters) exactly when `color`
is absent or empty, and never overwrites a non-empty `color`; whenever the
generator output is a hex color string — as `randomcolor` produces — the
defaulted value is a non-empty uppercase hex color.  A supplied non-empty
color is kept verbatim and is not forced to be hex-like. -/
theorem indicator_color_defaulting (rand : String) (i : IndicatorRec) :
    (isEmptyOpt i.color = true →
      (preValidateIndicator rand i).color = some (colorSetter rand)) ∧
    (isEmptyOpt i.color = false → preValidateIndicator rand i = i) ∧
    (isHexColor rand = true →
      isUpperHexColor (colorSetter rand) = true ∧ colorSetter rand ≠ "") := by
  refine ⟨?_, ?_, ?_⟩
  · intro h
    unfold preValidateIndicator
    rw [if_pos h]
  · intro h
    unfold preValidateIndicator
    rw [if_neg]
    simp [h]
  · intro h
    have hspace : ∀ x ∈ hexAnyChars, isSpaceA x = false := by decide
    have hupper : ∀ x ∈ hexAnyChars, hexUpperChars.contains (asciiUpper x) = true := by
      decide
    unfold isHexColor at h
    cases hL : rand.toList with
    | nil =>
      rw [hL] at h
      cases h
    | cons c rest =>
      rw [hL] at h
      unfold isHexList at h
      simp only [Bool.and_eq_true, beq_iff_eq, Bool.not_eq_true', List.all_eq_true] at h
      obtain ⟨⟨hc, hne⟩, hall⟩ := h
      subst hc
      have hnons : ∀ x ∈ '#' :: rest, isSpaceA x = false := by
        intro x hx
        rcases List.mem_cons.mp hx with h2 | h2
        · subst h2; decide
        · exact hspace x (mem_of_containsA (hall x h2))
      have hset : colorSetter rand = String.mk (('#' :: rest).map asciiUpper) := by
        unfold colorSetter
        rw [hL, trimChars_all_nonspace _ hnons]
      constructor
      · rw [hset]
        show isUpperHexList (asciiUpper '#' :: rest.map asciiUpper) = true
        unfold isUpperHexList
        simp only [Bool.and_eq_true, beq_iff_eq, Bool.not_eq_true', List.all_eq_true]
        refine ⟨⟨by decide, ?_⟩, ?_⟩
        · cases rest with
          | nil => cases hne
          | cons r rs => rfl
        · intro x hx
          rcases List.mem_map.mp hx with ⟨x0, hx0, rfl⟩
          exact hupper x0 (mem_of_containsA (hall x0 hx0))
      · rw [hset]
        intro hcontr
        have : ('#' :: rest).map asciiUpper = [] := congrArg String.data hcontr
        cases this

/-- Closed instance of the amended C5 defaulting, at a `randomcolor`-shaped
generator output and an Indicator with no color. -/
theorem indicator_color_defaulting_witness :
    (preValidateIndicator "#a3f2bb" ({ subject := some "Water" } : IndicatorRec)).color
      = some (colorSetter "#a3f2bb")
    ∧ isUpperHexColor (colorSetter "#a3f2bb") = true :=
  ⟨(indicator_color_defaulting "#a3f2bb" { subject := some "Water" }).1 (by decide),
   ((indicator_color_defaulting "#a3f2bb" { subject := some "Water" }).2.2
      (by decide)).1⟩

/-! ### Unique index enforcement -/

/-- No two stored Indicators collide on the `{subject, topic}` unique
index. -/
def IndicatorKeysUnique (s : List IndicatorRec) : Prop :=
  s.Pairwise (fun a b => indicatorKeyClash a b = false)

/-- No two stored Questions collide on the `{name}` unique index. -/
def QuestionNamesUnique (t : List QuestionRec) : Prop :=
  t.Pairwise (fun a b => questionKeyClash a b = false)

/-- C7: the declared unique indexes hold at all times: starting from a store
whose Indicators are pairwise distinct on `(subject, topic)`, a successful
create preserves that uniqueness, and attempting to create a second
Indicator colliding with a stored one on `(subject, topic)` fails with a
conflict error and persists nothing; likewise for Questions on `name`. -/
theorem unique_index_enforcement (s : List IndicatorRec) (r : IndicatorRec)
    (t : List QuestionRec) (u : QuestionRec) :
    (IndicatorKeysUnique s → ∀ s2, createIndicator s r = .ok s2 → IndicatorKeysUnique s2) ∧
    ((∃ x ∈ s, indicatorKeyClash x r = true) →
      createIndicator s r = .error .uniquenessConflict) ∧
    (QuestionNamesUnique t → ∀ t2, createQuestion t u = .ok t2 → QuestionNamesUnique t2) ∧
    ((∃ x ∈ t, questionKeyClash x u = true) →
      createQuestion t u = .error .uniquenessConflict) := by
  refine ⟨?_, ?_, ?_, ?_⟩
  · intro hs s2 hok
    unfold createIndicator at hok
    by_cases hany : s.any (fun x => indicatorKeyClash x r) = true
    · rw [if_pos hany] at hok
      cases hok
    · rw [if_neg hany] at hok
      injection hok with hok
      subst hok
      rw [List.any_eq_true] at hany
      push_neg at hany
      refine List.pairwise_append.mpr ⟨hs, List.pairwise_singleton _ _, ?_⟩
      intro x hx y hy
      rw [List.mem_singleton] at hy
      subst hy
      exact Bool.eq_false_iff.mpr (hany x hx)
  · rintro ⟨x, hx, hclash⟩
    unfold createIndicator
    rw [if_pos (List.any_eq_true.mpr ⟨x, hx, hclash⟩)]
  · intro ht t2 hok
    unfold createQuestion at hok
    by_cases hany : t.any (fun x => questionKeyClash x u) = true
    · rw [if_pos hany] at hok
      cases hok
    · rw [if_neg hany] at hok
      injection hok with hok
      subst hok
      rw [List.any_eq_true] at hany
      push_neg at hany
      refine List.pairwise_append.mpr ⟨ht, List.pairwise_singleton _ _, ?_⟩
      intro x hx y hy
      rw [List.mem_singleton] at hy
      subst hy
      exact Bool.eq_false_iff.mpr (hany x hx)
  · rintro ⟨x, hx, hclash⟩
    unfold createQuestion
    rw [if_pos (List.any_eq_true.mpr ⟨x, hx, hclash⟩)]

/-- Closed instance of the C7 enforcement: creating a second Indicator with
an identical `(subject, topic)` is refused. -/
theorem unique_index_enforcement_witness :
    createIndicator [{ subject := some "Water", topic := some "Supply" }]
      { subject := some "Water", topic := some "Supply", description := some "d" }
      = .error .uniquenessConflict ∧
    createQuestion [{ name := some "water_supply" }] { name := some "water_supply" }
      = .error .uniquenessConflict :=
  ⟨(unique_index_enforcement [{ subject := some "Water", topic := some "Supply" }]
      { subject := some "Water", topic := some "Supply", description := some "d" }
      [] {}).2.1
      ⟨{ subject := some "Water", topic := some "Supply" },
       List.mem_cons_self _ _, by decide⟩,
   (unique_index_enforcement [] {} [{ name := some "water_supply" }]
      { name := some "water_supply" }).2.2.2
      ⟨{ name := some "water_supply" }, List.mem_cons_self _ _, by decide⟩⟩

/-! ### Autopopulate shallow projection -/

theorem projectIndicator_depth_one (store : List IndicatorRec) (r : IndicatorRec) :
    projectIndicator store 1 r =
      .mk r._id none r.subject r.topic none r.color none := by
  rw [projectIndicator]
  rw [dif_neg (by decide)]
  rfl

/-- C8: a Question read resolves its `indicator` reference to the shallow
projection of the target Indicator carrying exactly the selected data fields
`subject`, `topic`, `color` (with `description`, `icon` and the `base`
reference all absent); an Indicator read resolves its own `base` reference
to the same shallow projection, one level deep only — the populated `base`
never contains a further expanded `base`. -/
theorem autopopulate_shallow_projection (store : List IndicatorRec) :
    (∀ (q : QuestionRec) (i : Nat) (target : IndicatorRec),
      q.indicator = some i → lookupIndicator store i = some target →
      readQuestionIndicator store q =
        some (.mk target._id none target.subject target.topic none target.color none)) ∧
    (∀ (r : IndicatorRec) (j : Nat) (btarget : IndicatorRec),
      r.base = some j → lookupIndicator store j = some btarget →
      (readIndicator store r).base =
        some (.mk btarget._id none btarget.subject btarget.topic none btarget.color none)) ∧
    (∀ (r : IndicatorRec) (p : PopulatedIndicator),
      (readIndicator store r).base = some p → p.base = none) := by
  refine ⟨?_, ?_, ?_⟩
  · intro q i target hq hl
    unfold readQuestionIndicator
    rw [hq]
    show (lookupIndicator store i).map (projectIndicator store 1) = _
    rw [hl]
    show some (projectIndicator store 1 target) = _
    rw [projectIndicator_depth_one]
  · intro r j btarget hr hl
    unfold readIndicator
    show ((r.base.bind (lookupIndicator store)).map (projectIndicator store 1)) = _
    rw [hr]
    show (lookupIndicator store j).map (projectIndicator store 1) = _
    rw [hl]
    show some (projectIndicator store 1 btarget) = _
    rw [projectIndicator_depth_one]
  · intro r p hp
    unfold readIndicator at hp
    have hp2 : (r.base.bind (lookupIndicator store)).map (projectIndicator store 1)
        = some p := hp
    rcases Option.map_eq_some'.mp hp2 with ⟨t0, _, rfl⟩
    rw [projectIndicator_depth_one]
    rfl

/-- Closed instance of the C8 shallow projection, at a two-Indicator store
with a base reference. -/
theorem autopopulate_shallow_projection_witness :
    readQuestionIndicator
      [{ _id := some 1, base := some 2, subject := some "Water",
         topic := some "Supply", color := some "#FFFFFF",
         description := some "top", icon := some "i" },
       { _id := some 2, subject := some "Health", topic := some "H",
         color := some "#000000" }]
      { indicator := some 1 }
      = some (.mk (some 1) none (some "Water") (some "Supply") none
          (some "#FFFFFF") none) :=
  (autopopulate_shallow_projection _).1 { indicator := some 1 } 1
    { _id := some 1, base := some 2, subject := some "Water",
      topic := some "Supply", color := some "#FFFFFF",
      description := some "top", icon := some "i" }
    rfl (by decide)

/-- C10: the Question autopopulate projection selects the path names
`access`, `stage`, `phase`, `label`, `name`; since `QuestionSchema` declares
no path named `access` (the declared path is `assess`), a Question resolved
through this projection never carries its `assess` value — only `stage`,
`phase`, `label` and `name` survive. -/
theorem question_projection_access_typo (q : QuestionRec) :
    (projectQuestion q).assess = none ∧
    (projectQuestion q).stage = q.stage ∧
    (projectQuestion q).phase = q.phase ∧
    (projectQuestion q).label = q.label ∧
    (projectQuestion q).name = q.name ∧
    (projectQuestion q).type = none ∧
    (projectQuestion q).help = none ∧
    (projectQuestion q).choices = none ∧
    (projectQuestion q).indicator = none ∧
    questionSchemaPaths.contains "access" = false ∧
    QUESTION_OPTION_AUTOPOPULATE_select.contains "assess" = false := by
  refine ⟨rfl, rfl, rfl, rfl, rfl, rfl, rfl, rfl, rfl, by decide, by decide⟩

/-! ### Supporting lemmas: seeding aggregation -/

theorem upsert_of_upsertE_err (n : Nat) (rand : String) (c : IndicatorRec)
    (s : List IndicatorRec) (e : SeedError) (hu : upsertE n rand c s = .error e) :
    upsert n rand c s = s := by
  unfold upsert
  rw [hu]

theorem upsert_of_upsertE_ok (n : Nat) (rand : String) (c : IndicatorRec)
    (s s2 : List IndicatorRec) (r : IndicatorRec)
    (hu : upsertE n rand c s = .ok (s2, r)) :
    upsert n rand c s = s2 := by
  unfold upsert
  rw [hu]

theorem seedE_cons_err (rand : Nat → String) (n : Nat) (s : List IndicatorRec)
    (c : IndicatorRec) (cs : List IndicatorRec) (e : SeedError)
    (hu : upsertE n (rand n) c s = .error e) :
    seedE rand n s (c :: cs) =
      ((seedE rand (n + 1) s cs).1,
       exceptCombine (.error e) (seedE rand (n + 1) s cs).2) := by
  simp only [seedE, hu]

theorem seedE_cons_ok (rand : Nat → String) (n : Nat) (s : List IndicatorRec)
    (c : IndicatorRec) (cs : List IndicatorRec) (s2 : List IndicatorRec)
    (r : IndicatorRec) (hu : upsertE n (rand n) c s = .ok (s2, r)) :
    seedE rand n s (c :: cs) =
      ((seedE rand (n + 1) s2 cs).1,
       exceptCombine (.ok r) (seedE rand (n + 1) s2 cs).2) := by
  simp only [seedE, hu]

/-- C9: the per-record upserts of a seed batch are issued independently; the
seed callback reports success exactly when every record's upsert succeeds —
with the full list of persisted records, one per candidate — and otherwise
reports the first encountered error; the store is the one obtained by
letting every upsert take its effect, so records persisted before (or
after) the failure are not rolled back. -/
theorem seed_error_aggregation (rand : Nat → String) :
    ∀ (cs : List IndicatorRec) (n : Nat) (s : List IndicatorRec),
    (seedE rand n s cs).1 = seedStore rand n s cs ∧
    (∀ rs, (seedE rand n s cs).2 = .ok rs → rs.length = cs.length) ∧
    (∀ e, (seedE rand n s cs).2 = .error e →
      ∃ i, ∃ hi : i < cs.length,
        upsertE (n + i) (rand (n + i)) (cs.get ⟨i, hi⟩)
          (seedStore rand n s (cs.take i)) = .error e ∧
        ∀ j (hj : j < cs.length), j < i →
          (upsertE (n + j) (rand (n + j)) (cs.get ⟨j, hj⟩)
            (seedStore rand n s (cs.take j))).isOk = true) ∧
    ((∀ j (hj : j < cs.length),
        (upsertE (n + j) (rand (n + j)) (cs.get ⟨j, hj⟩)
          (seedStore rand n s (cs.take j))).isOk = true) →
      ∃ rs, (seedE rand n s cs).2 = .ok rs) := by
  intro cs
  induction cs with
  | nil =>
    intro n s
    refine ⟨rfl, ?_, ?_, ?_⟩
    · intro rs h
      have h2 : (Except.ok [] : Except SeedError (List IndicatorRec)) = .ok rs := h
      injection h2 with h2
      subst h2
      rfl
    · intro e h
      cases h
    · intro _
      exact ⟨[], rfl⟩
  | cons c cs ih =>
    intro n s
    cases hu : upsertE n (rand n) c s with
    | error e0 =>
      have heq := seedE_cons_err rand n s c cs e0 hu
      have hst : seedStore rand n s (c :: cs) = seedStore rand (n + 1) s cs := by
        show seedStore rand (n + 1) (upsert n (rand n) c s) cs = _
        rw [upsert_of_upsertE_err n (rand n) c s e0 hu]
      refine ⟨?_, ?_, ?_, ?_⟩
      · rw [heq, hst]
        exact (ih (n + 1) s).1
      · intro rs h
        rw [heq] at h
        cases h2 : (seedE rand (n + 1) s cs).2 with
        | error e1 => rw [h2] at h; cases h
        | ok rs2 => rw [h2] at h; cases h
      · intro e h
        rw [heq] at h
        have he : e0 = e := by
          cases h2 : (seedE rand (n + 1) s cs).2 with
          | error e1 => rw [h2] at h; injection h
          | ok rs2 => rw [h2] at h; injection h
        subst he
        refine ⟨0, Nat.succ_pos _, ?_, ?_⟩
        · exact hu
        · intro j hj hlt
          exact absurd hlt (Nat.not_lt_zero j)
      · intro hall
        exfalso
        have h0 : (upsertE n (rand n) c s).isOk = true := hall 0 (Nat.succ_pos _)
        rw [hu] at h0
        cases h0
    | ok p =>
      obtain ⟨s2, r⟩ := p
      have heq := seedE_cons_ok rand n s c cs s2 r hu
      have hst : seedStore rand n s (c :: cs) = seedStore rand (n + 1) s2 cs := by
        show seedStore rand (n + 1) (upsert n (rand n) c s) cs = _
        rw [upsert_of_upsertE_ok n (rand n) c s s2 r hu]
      have htake : ∀ j, seedStore rand n s ((c :: cs).take (j + 1))
          = seedStore rand (n + 1) s2 (cs.take j) := by
        intro j
        show seedStore rand (n + 1) (upsert n (rand n) c s) (cs.take j) = _
        rw [upsert_of_upsertE_ok n (rand n) c s s2 r hu]
      refine ⟨?_, ?_, ?_, ?_⟩
      · rw [heq, hst]
        exact (ih (n + 1) s2).1
      · intro rs h
        rw [heq] at h
        cases h2 : (seedE rand (n + 1) s2 cs).2 with
        | error e1 => rw [h2] at h; cases h
        | ok rs2 =>
          rw [h2] at h
          have h3 : (Except.ok (r :: rs2) : Except SeedError (List IndicatorRec))
              = .ok rs := h
          injection h3 with h3
          subst h3
          have hlen := (ih (n + 1) s2).2.1 rs2 h2
          simp [hlen]
      · intro e h
        rw [heq] at h
        cases h2 : (seedE rand (n + 1) s2 cs).2 with
        | ok rs2 => rw [h2] at h; cases h
        | error e1 =>
          rw [h2] at h
          have he : e1 = e := by injection h
          subst he
          obtain ⟨i, hi, herr, hpre⟩ := (ih (n + 1) s2).2.2.1 e1 h2
          refine ⟨i + 1, Nat.succ_lt_succ hi, ?_, ?_⟩
          · have hc : n + (i + 1) = (n + 1) + i := by omega
            rw [hc, htake i]
            exact herr
          · intro j hj hlt
            cases j with
            | zero =>
              have hok : (upsertE n (rand n) c s).isOk = true := by
                rw [hu]
                rfl
              exact hok
            | succ j2 =>
              have hc : n + (j2 + 1) = (n + 1) + j2 := by omega
              have hj2 : j2 < cs.length := Nat.lt_of_succ_lt_succ hj
              have hlt2 : j2 < i := Nat.lt_of_succ_lt_succ hlt
              have hok := hpre j2 hj2 hlt2
              rw [hc, htake j2]
              exact hok
      · intro hall
        have hall2 : ∀ j (hj : j < cs.length),
            (upsertE ((n + 1) + j) (rand ((n + 1) + j)) (cs.get ⟨j, hj⟩)
              (seedStore rand (n + 1) s2 (cs.take j))).isOk = true := by
          intro j hj
          have hc : n + (j + 1) = (n + 1) + j := by omega
          have hstep := hall (j + 1) (Nat.succ_lt_succ hj)
          rw [hc, htake j] at hstep
          exact hstep
        obtain ⟨rs2, hrs2⟩ := (ih (n + 1) s2).2.2.2 hall2
        refine ⟨r :: rs2, ?_⟩
        rw [heq]
        show exceptCombine (.ok r) (seedE rand (n + 1) s2 cs).2 = _
        rw [hrs2]
        rfl

/-- Closed instance of the C9 aggregation: a one-candidate batch that
succeeds reports exactly one persisted record. -/
theorem seed_error_aggregation_witness :
    ([{ _id := some 0, subject := some "Water", topic := some "Supply",
        color := some "#ABC123" }] : List IndicatorRec).length
      = [({ subject := some "Water", topic := some "Supply" } : IndicatorRec)].length :=
  (seed_error_aggregation (fun _ => "#abc123")
    [{ subject := some "Water", topic := some "Supply" }] 0 []).2.1
    [{ _id := some 0, subject := some "Water", topic := some "Supply",
       color := some "#ABC123" }]
    (by rfl)
